import Mathlib

/-!
Verification of the OpenLCS core: filesystem/archive utilities, component
grouping, NVR formatting (`openlcs/libs/common.py`), the product/release data
model and tree node tables (`openlcs/products/models.py`), and the bulk-import
task orchestrator (`openlcs/packages/serializers.py`), shallowly embedded in
Lean 4.
-/

namespace OpenLCS

/-- Python exception kinds raised by the embedded code. -/
inductive PyErr where
  | typeError
  | osError
  | keyError (k : String)
  | validationError (msg : String)
  | multipleObjectsReturned
  | runtimeError
deriving DecidableEq, Repr

/-! ### MIME detection (`common.get_mime_type`)

The function consults `mimetypes.MimeTypes().guess_type` (a static
extension-to-type table) and, on a miss, falls back to `filetype.guess_mime`
(content sniffing) inside `try/except TypeError`.  Both libraries are external,
so the embedding is parameterised by their outcomes for the given path: the
table outcome is an `Option String`, the sniffing outcome is a `SniffOutcome`
(value returned, or the exception the library raised). -/

/-- Outcome of the external `filetype.guess_mime` call on a path. -/
inductive SniffOutcome where
  | value (m : Option String)
  | raisesTypeError
  | raisesOSError
deriving DecidableEq, Repr

/-- `common.get_mime_type`: extension-table lookup, then sniffing guarded by
`except TypeError: pass` only. -/
def get_mime_type (tableResult : Option String) (sniff : SniffOutcome) :
    Except PyErr (Option String) :=
  match tableResult with
  | some m => Except.ok (some m)
  | none =>
    match sniff with
    | SniffOutcome.value m => Except.ok m
    | SniffOutcome.raisesTypeError => Except.ok none
    | SniffOutcome.raisesOSError => Except.error PyErr.osError

/-! ### NVR formatting (`common.get_nvr_list_from_components`)

A component record is a Python dict; the embedding keeps the fields as an
association list of string keys to string values.  `components` is the dict
produced by `group_components`, mapped here as an association list from type
to the list of records of that type. -/

/-- Association-list lookup with decidable key equality (Python `dict` read /
`dict.get`). -/
def alookup {β : Type} [DecidableEq β] {γ : Type} : List (β × γ) → β → Option γ
  | [], _ => none
  | p :: rest, b => if p.1 = b then some p.2 else alookup rest b

/-- A component record: its fields as a string-keyed dict. -/
def ComponentRec : Type := List (String × String)

instance : DecidableEq ComponentRec := by
  unfold ComponentRec; exact inferInstance

/-- `"{name}-{version}-{release}".format(**component)`: the format string
resolves its fields left to right and raises `KeyError` at the first missing
one. -/
def format_nvr (c : ComponentRec) : Except PyErr String :=
  match alookup c "name" with
  | none => Except.error (PyErr.keyError "name")
  | some n =>
    match alookup c "version" with
    | none => Except.error (PyErr.keyError "version")
    | some v =>
      match alookup c "release" with
      | none => Except.error (PyErr.keyError "release")
      | some r => Except.ok (n ++ "-" ++ v ++ "-" ++ r)

/-- The `for component in ...` accumulation loop of
`get_nvr_list_from_components`: format each record in order, aborting at the
first failing one. -/
def nvr_loop : List ComponentRec → Except PyErr (List String)
  | [] => Except.ok []
  | c :: rest =>
    match format_nvr c with
    | Except.error e => Except.error e
    | Except.ok nvr =>
      match nvr_loop rest with
      | Except.error e => Except.error e
      | Except.ok nvrs => Except.ok (nvr :: nvrs)

/-- `common.get_nvr_list_from_components`: `components.get(comp_type)` returns
`None` (here `none`) when the type is absent, and the `for` loop over `None`
raises `TypeError`; otherwise each record is formatted in order. -/
def get_nvr_list_from_components (components : List (String × List ComponentRec))
    (comp_type : String) : Except PyErr (List String) :=
  match alookup components comp_type with
  | none => Except.error PyErr.typeError
  | some comps => nvr_loop comps

/-- A record has all three fields the NVR format string requires. -/
def hasNVRFields (c : ComponentRec) : Prop :=
  (alookup c "name").isSome ∧ (alookup c "version").isSome ∧
    (alookup c "release").isSome

instance (c : ComponentRec) : Decidable (hasNVRFields c) := by
  unfold hasNVRFields
  exact inferInstance

/-- The `name-version-release` string of a complete record. -/
def nvrString (c : ComponentRec) : String :=
  (alookup c "name").getD "" ++ "-" ++ (alookup c "version").getD "" ++ "-"
    ++ (alookup c "release").getD ""

/-! ### Component grouping (`common.group_components`)

The source iterates `itertools.groupby(components, key=itemgetter(key))` —
maximal runs of adjacent records with equal key — and appends every record of
every run to `result[key]` where `result` is a `defaultdict(list)`.  Records
are kept abstract (`α`) with the key extraction `k : α → β` standing for
`itemgetter(key)`. -/

/-- `itertools.groupby`: split a list into maximal runs of adjacent elements
with equal key. -/
def pyGroupby {α β : Type} [DecidableEq β] (k : α → β) : List α → List (β × List α)
  | [] => []
  | x :: xs =>
    match pyGroupby k xs with
    | [] => [(k x, [x])]
    | (b, ys) :: rest =>
      if k x = b then (b, x :: ys) :: rest
      else (k x, [x]) :: (b, ys) :: rest

/-- `defaultdict(list)` write `result[b].append(x)`: append `x` to the list
stored at key `b`, creating the entry (at the end, in insertion order) when the
key is absent. -/
def dictAppend {β α : Type} [DecidableEq β] : List (β × List α) → β → α → List (β × List α)
  | [], b, x => [(b, [x])]
  | (c, l0) :: rest, b, x =>
    if c = b then (c, l0 ++ [x]) :: rest else (c, l0) :: dictAppend rest b x

/-- `common.group_components`: fold the `groupby` runs into the defaultdict. -/
def group_components {α β : Type} [DecidableEq β] (k : α → β) (components : List α) :
    List (β × List α) :=
  (pyGroupby k components).foldl
    (fun d p => p.2.foldl (fun d2 i => dictAppend d2 p.1 i) d) []

/-- Element-wise defaultdict fold; `group_components` reduces to it. -/
def groupFold {α β : Type} [DecidableEq β] (k : α → β) (l : List α)
    (d : List (β × List α)) : List (β × List α) :=
  l.foldl (fun d2 x => dictAppend d2 (k x) x) d

/-- `some` on a nonempty list, `none` on the empty one: the shape of a
defaultdict read after grouping. -/
def optOfList {γ : Type} : List γ → Option (List γ)
  | [] => none
  | l => some l

/-- The caller-side pre-sorting contract: all records with equal key values
are contiguous, i.e. no key value starts two distinct `groupby` runs. -/
def ContiguousKeys {α β : Type} [DecidableEq β] (k : α → β) (l : List α) : Prop :=
  ((pyGroupby k l).map Prod.fst).Nodup

instance {α β : Type} [DecidableEq β] (k : α → β) (l : List α) :
    Decidable (ContiguousKeys k l) := by
  unfold ContiguousKeys
  exact inferInstance

/-! ### Archive packing (`common.compress_source_to_tarball`)

The source runs `subprocess.check_call("tar -c  * | gzip -n > %s" % dest_file,
shell=True, cwd=src_dir)` and, when `check_call` does not raise, removes
`src_dir` with `shutil.rmtree`.  The embedding models the directory as its list
of top-level entries (name plus opaque content), the `sh` glob `*` (which skips
names beginning with a dot and stays literal when nothing matches), `tar -c`
over the glob's expansion, and `gzip -n > dest` whose exit status — the status
of the last command of the pipeline, hence the one `check_call` sees — depends
only on whether the destination is writable. -/

/-- A top-level directory entry: a name and its (opaque) content. -/
structure SrcEntry where
  name : String
  data : String
deriving DecidableEq, Repr

/-- A name the shell glob `*` skips: one whose first character is a dot. -/
def isHiddenName (n : String) : Bool :=
  match n.data with
  | [] => false
  | c :: _ => decide (c = '.')

/-- `sh` expansion of the glob `*` in a directory: the entry names not
beginning with `.`, or the literal `*` when none match. -/
def shellGlobStar (src_dir : List SrcEntry) : List String :=
  let matched := (src_dir.map SrcEntry.name).filter (fun n => !isHiddenName n)
  if matched.isEmpty then ["*"] else matched

/-- `tar -c` over the argument names: the archived entries, and exit status 0
exactly when every argument names an existing entry. -/
def tarCreate (src_dir : List SrcEntry) (args : List String) : List SrcEntry × Nat :=
  (args.filterMap (fun n => src_dir.find? (fun e => e.name = n)),
   if args.all (fun n => src_dir.any (fun e => e.name = n)) then 0 else 2)

/-- `common.compress_source_to_tarball`: returns whether `src_dir` was removed
and either the archived entries or the `RuntimeError` re-raised from
`CalledProcessError`.  The pipeline's exit status is `gzip`'s, so `tar`'s own
status (`(tarCreate ..).2`) never reaches `check_call`. -/
def compress_source_to_tarball (src_dir : List SrcEntry) (destWritable : Bool) :
    Bool × Except PyErr (List SrcEntry) :=
  let args := shellGlobStar src_dir
  let tarOut := tarCreate src_dir args
  let gzipExit : Nat := if destWritable then 0 else 1
  if gzipExit ≠ 0 then (false, Except.error PyErr.runtimeError)
  else (true, Except.ok tarOut.1)

/-! ### Products data model (`products/models.py`)

Rows of the `Product`, `Release` and tree-node tables, and the declared
uniqueness constraints, embedded as explicit record lists.  `Release.name` is a
plain text column (the model comment reads: `'name' is a joint string:
product-version`). -/

/-- A `products.Release` row. -/
structure ReleaseRow where
  product_id : Nat
  version : String
  name : String
  notes : String
deriving DecidableEq, Repr

/-- A `products.Product` row (fields not used by the claims omitted from the
operations, kept for identity). -/
structure ProductRow where
  id : Nat
  name : String
deriving DecidableEq, Repr

/-- `Product.add_release`: `self.release_set.update_or_create(name=name,
version=version, defaults={"notes": notes})` — look the release up by the
caller-supplied `name` and `version` within this product's release set; update
`notes` when found, otherwise create the row with exactly the supplied
`name`. Returns the new table state and the created/updated row. -/
def add_release (releases : List ReleaseRow) (p : ProductRow)
    (name version notes : String) : List ReleaseRow × ReleaseRow :=
  match releases.find? (fun r =>
      decide (r.product_id = p.id) && decide (r.name = name)
        && decide (r.version = version)) with
  | some r =>
    let r2 : ReleaseRow := ⟨r.product_id, r.version, r.name, notes⟩
    (releases.map (fun q => if q = r then r2 else q), r2)
  | none =>
    let r : ReleaseRow := ⟨p.id, version, name, notes⟩
    (releases ++ [r], r)

/-- A row of one of the tree-node tables (`MpttTreeNodeMixin` fields used by
the declared constraints: primary key, parent foreign key, generic entity
reference). -/
structure TreeNodeRow where
  id : Nat
  name : String
  parent : Option Nat
  content_type : Nat
  object_id : Nat
deriving DecidableEq, Repr

/-- The constraint fields appearing in `Meta.constraints` of the node models. -/
inductive NodeField where
  | parent
  | object_id
deriving DecidableEq, Repr

/-- Value of a constraint field on a row (`parent` is nullable). -/
def nodeFieldVal (r : TreeNodeRow) : NodeField → Option Nat
  | NodeField.parent => r.parent
  | NodeField.object_id => some r.object_id

/-- A declared table constraint (`models.UniqueConstraint(fields=...)`). -/
inductive TableConstraint where
  | uniqueFields (fields : List NodeField)
deriving DecidableEq, Repr

/-- A table state satisfies `UniqueConstraint(fields)` when no two rows agree
on every listed field. -/
def satisfiesConstraint (t : List TreeNodeRow) : TableConstraint → Prop
  | TableConstraint.uniqueFields fs =>
    t.Pairwise (fun r1 r2 => fs.map (nodeFieldVal r1) ≠ fs.map (nodeFieldVal r2))

instance (t : List TreeNodeRow) (c : TableConstraint) :
    Decidable (satisfiesConstraint t c) := by
  cases c with
  | uniqueFields fs =>
    unfold satisfiesConstraint
    exact inferInstance

/-- `ProductTreeNode.Meta.constraints`: `UniqueConstraint(fields=['parent',
'object_id'], name='unique_parent_content_object')`. -/
def productTreeNodeConstraints : List TableConstraint :=
  [TableConstraint.uniqueFields [NodeField.parent, NodeField.object_id]]

/-- `ComponentTreeNode` declares no `Meta.constraints` of its own and inherits
only the abstract mixin, which declares none either. -/
def componentTreeNodeConstraints : List TableConstraint := []

/-- The parent foreign key of a row resolves inside the table (or is null). -/
def parentResolves (t : List TreeNodeRow) (r : TreeNodeRow) : Prop :=
  match r.parent with
  | none => True
  | some pid => pid ∈ t.map TreeNodeRow.id

instance (t : List TreeNodeRow) (r : TreeNodeRow) : Decidable (parentResolves t r) := by
  unfold parentResolves
  cases r.parent with
  | none => exact inferInstanceAs (Decidable True)
  | some pid => exact inferInstance

/-- A reachable store state for a node table: primary keys are unique, every
parent reference resolves, and every constraint declared on the model holds. -/
def tableValid (cs : List TableConstraint) (t : List TreeNodeRow) : Prop :=
  (t.map TreeNodeRow.id).Nodup ∧
  (∀ r ∈ t, parentResolves t r) ∧
  (∀ c ∈ cs, satisfiesConstraint t c)

instance (cs : List TableConstraint) (t : List TreeNodeRow) :
    Decidable (tableValid cs t) := by
  unfold tableValid
  exact inferInstance

/-- The sibling-uniqueness property of the claims: no two rows share both
parent and referenced entity id. -/
def siblingUnique (t : List TreeNodeRow) : Prop :=
  t.Pairwise (fun r1 r2 => ¬(r1.parent = r2.parent ∧ r1.object_id = r2.object_id))

instance (t : List TreeNodeRow) : Decidable (siblingUnique t) := by
  unfold siblingUnique
  exact inferInstance

/-! ### Bulk import orchestrator (`packages/serializers.py`)

`ImportSerializer.fork_import_tasks` iterates `get_tasks_params()`; for each
`(key, task_params)` it deep-copies the params, adds `owner_id`, dispatches via
`app.send_task(task_flow, [params])`, creates a `Task` row recording the
worker-assigned correlation id (`meta_id=celery_task.task_id`), and collects
`result[key] = {'task_id': task.id}`.  Parameter dicts are string-keyed
association lists of `Value`s; deep copy of an immutable embedding is the
identity.  The external celery broker and the `Task` table autoincrement are
modelled inside `OrchState`: the broker assigns a fresh correlation id per
dispatch and logs the payload. -/

/-- A value in a task-parameter dict. -/
inductive Value where
  | str (s : String)
  | bool (b : Bool)
  | int (n : Int)
deriving DecidableEq, Repr

/-- A Python dict with string keys, as an insertion-ordered association list. -/
def Dict : Type := List (String × Value)

instance : DecidableEq Dict := by
  unfold Dict; exact inferInstance

instance : Repr Dict := by
  unfold Dict; exact inferInstance

/-- Python `d[k] = v`: overwrite in place, or append a new entry. -/
def dictSet : Dict → String → Value → Dict
  | [], k, v => [(k, v)]
  | p :: rest, k, v => if p.1 = k then (k, v) :: rest else p :: dictSet rest k v

/-- A `tasks.Task` row as created by `fork_import_tasks`: owner, correlation id
(`meta_id`), task-flow name, and the parameter payload (stored without the
`owner_id` entry, which is added only to the dispatched copy). -/
structure TaskRow where
  id : Nat
  owner_id : Nat
  meta_id : Nat
  task_flow : String
  params : Dict
deriving DecidableEq, Repr

/-- Store plus external-broker state: the `Task` table with its autoincrement
cursor, the broker's next correlation id, and the log of dispatched
`(task_flow, payload)` messages. -/
structure OrchState where
  tasks : List TaskRow
  nextTaskId : Nat
  nextCorrId : Nat
  dispatched : List (String × Dict)
deriving DecidableEq, Repr

/-- `result[key] = {'task_id': task.id}` on the plain result dict. -/
def insertResult : List (String × Nat) → String → Nat → List (String × Nat)
  | [], k, v => [(k, v)]
  | p :: rest, k, v => if p.1 = k then (k, v) :: rest else p :: insertResult rest k v

/-- The loop body of `fork_import_tasks`, threading the result dict and the
state through the `(key, task_params)` list. -/
def fork_loop (task_flow : String) (user_id : Nat) :
    List (String × Dict) → List (String × Nat) → OrchState →
      List (String × Nat) × OrchState
  | [], result, st => (result, st)
  | (key, task_params) :: rest, result, st =>
    let params := dictSet task_params "owner_id" (Value.int user_id)
    let corr := st.nextCorrId
    let st1 : OrchState :=
      { st with nextCorrId := st.nextCorrId + 1,
                dispatched := st.dispatched ++ [(task_flow, params)] }
    let task : TaskRow := ⟨st1.nextTaskId, user_id, corr, task_flow, task_params⟩
    let st2 : OrchState :=
      { st1 with tasks := st1.tasks ++ [task], nextTaskId := st1.nextTaskId + 1 }
    fork_loop task_flow user_id rest (insertResult result key task.id) st2

/-- `ImportSerializer.fork_import_tasks`. -/
def fork_import_tasks (tasksParams : List (String × Dict)) (task_flow : String)
    (user_id : Nat) (st : OrchState) : List (String × Nat) × OrchState :=
  fork_loop task_flow user_id tasksParams [] st

/-- `ImportSerializer.get_task_flow`. -/
def get_task_flow : String := "flow.tasks.flow_default"

/-- `NVRImportSerializer.get_tasks_params`: one `(nvr, dict(package_nvr=nvr,
**params))` pair per requested NVR, sharing `params`. -/
def get_tasks_params (package_nvrs : List String) (shared : Dict) :
    List (String × Dict) :=
  package_nvrs.map (fun nvr => (nvr, ("package_nvr", Value.str nvr) :: shared))

/-- `release_validator`: `Release.objects.get(name=value)` inside
`try/except Release.DoesNotExist`; a missing release raises
`ValidationError('Non-existent product release: %s' % value)`, more than one
match propagates `MultipleObjectsReturned`, and `None` is passed through. -/
def release_validator (releases : List ReleaseRow) (value : Option String) :
    Except PyErr (Option String) :=
  match value with
  | none => Except.ok none
  | some v =>
    match releases.filter (fun r => decide (r.name = v)) with
    | [] => Except.error
        (PyErr.validationError ("Non-existent product release: " ++ v))
    | [_] => Except.ok (some v)
    | _ => Except.error PyErr.multipleObjectsReturned

/-- Modelled from the spec: the REST view driving an NVR batch import is not
part of the sources; per the spec it validates the submission first — running
`release_validator` on the declared `product_release` — and only on success
calls `fork_import_tasks`, so a validation failure surfaces before any dispatch
and leaves the store untouched. -/
def submit_nvr_import (releases : List ReleaseRow) (product_release : Option String)
    (package_nvrs : List String) (shared : Dict) (user_id : Nat) (st : OrchState) :
    OrchState × Except PyErr (List (String × Nat)) :=
  match release_validator releases product_release with
  | Except.error e => (st, Except.error e)
  | Except.ok _ =>
    let out := fork_import_tasks (get_tasks_params package_nvrs shared)
      get_task_flow user_id st
    (out.2, Except.ok out.1)

/-! ### Expected-output helpers for the orchestrator

Closed forms for what one pass of `fork_loop` produces, used to state its
specification. -/

/-- The `Task` rows created for a parameter batch, with task ids counting up
from `tid` and correlation ids counting up from `cid`. -/
def newTaskRows (task_flow : String) (user_id : Nat) :
    Nat → Nat → List (String × Dict) → List TaskRow
  | _, _, [] => []
  | tid, cid, (_, d) :: rest =>
    ⟨tid, user_id, cid, task_flow, d⟩ :: newTaskRows task_flow user_id (tid + 1) (cid + 1) rest

/-- The returned mapping for a batch: each key paired with its task id, in
batch order. -/
def resultPairs : Nat → List (String × Dict) → List (String × Nat)
  | _, [] => []
  | tid, (key, _) :: rest => (key, tid) :: resultPairs (tid + 1) rest

/-- The result dict as the loop actually accumulates it. -/
def newResult : Nat → List (String × Dict) → List (String × Nat) → List (String × Nat)
  | _, [], r => r
  | tid, (key, _) :: rest, r => newResult (tid + 1) rest (insertResult r key tid)

/-- `n` consecutive ids starting at `s`. -/
def idRange : Nat → Nat → List Nat
  | _, 0 => []
  | s, n + 1 => s :: idRange (s + 1) n

/-- The payload dispatched for one item: the shared parameters with the item's
`package_nvr` key (from `get_tasks_params`) and, on the deep copy made by
`fork_import_tasks`, the `owner_id`. -/
def itemPayload (shared : Dict) (uid : Nat) (nvr : String) : Dict :=
  dictSet (("package_nvr", Value.str nvr) :: shared) "owner_id" (Value.int uid)

/-! ### Supporting lemmas: grouping -/

theorem groupFold_nil {α β : Type} [DecidableEq β] (k : α → β)
    (d : List (β × List α)) : groupFold k [] d = d := rfl

theorem groupFold_cons {α β : Type} [DecidableEq β] (k : α → β) (x : α) (xs : List α)
    (d : List (β × List α)) :
    groupFold k (x :: xs) d = groupFold k xs (dictAppend d (k x) x) := rfl

theorem group_components_eq_groupFold {α β : Type} [DecidableEq β] (k : α → β) :
    ∀ (l : List α) (d : List (β × List α)),
      (pyGroupby k l).foldl (fun d2 p => p.2.foldl (fun d3 i => dictAppend d3 p.1 i) d2) d
        = groupFold k l d := by
  intro l
  induction l with
  | nil => intro d; rfl
  | cons x xs ih =>
    intro d
    cases hg : pyGroupby k xs with
    | nil =>
      have hxs : xs = [] := by
        cases xs with
        | nil => rfl
        | cons y ys =>
          exfalso
          simp only [pyGroupby] at hg
          cases h2 : pyGroupby k ys with
          | nil => rw [h2] at hg; exact absurd hg (by simp)
          | cons p rest =>
            rw [h2] at hg
            obtain ⟨b, zs⟩ := p
            by_cases hk : k y = b <;> simp [hk] at hg
      subst hxs
      simp only [pyGroupby, List.foldl_cons, List.foldl_nil, groupFold]
    | cons p rest =>
      obtain ⟨b, ys⟩ := p
      by_cases hk : k x = b
      · have hstep : pyGroupby k (x :: xs) = (b, x :: ys) :: rest := by
          simp only [pyGroupby, hg, hk, if_true]
        rw [hstep, List.foldl_cons]
        have hrun :
            (x :: ys).foldl (fun d3 i => dictAppend d3 b i) d
              = ys.foldl (fun d3 i => dictAppend d3 b i) (dictAppend d b x) := by
          simp [List.foldl_cons]
        rw [hrun]
        have := ih (dictAppend d b x)
        rw [hg, List.foldl_cons] at this
        rw [this, groupFold_cons, hk]
      · have hstep : pyGroupby k (x :: xs) = (k x, [x]) :: (b, ys) :: rest := by
          simp only [pyGroupby, hg, hk, if_false]
        rw [hstep, List.foldl_cons]
        have hrun :
            [x].foldl (fun d3 i => dictAppend d3 (k x) i) d = dictAppend d (k x) x := by
          simp [List.foldl_cons]
        rw [hrun]
        have := ih (dictAppend d (k x) x)
        rw [hg] at this
        rw [this, groupFold_cons]

theorem group_components_eq {α β : Type} [DecidableEq β] (k : α → β) (l : List α) :
    group_components k l = groupFold k l [] :=
  group_components_eq_groupFold k l []

theorem alookup_dictAppend_self {β α : Type} [DecidableEq β] :
    ∀ (d : List (β × List α)) (b : β) (x : α),
      alookup (dictAppend d b x) b = some ((alookup d b).getD [] ++ [x])
  | [], b, x => by simp [dictAppend, alookup]
  | (c, l0) :: rest, b, x => by
    by_cases hc : c = b
    · subst hc
      simp [dictAppend, alookup]
    · simp only [dictAppend, hc, if_false]
      simp only [alookup, hc, if_false]
      exact alookup_dictAppend_self rest b x

theorem alookup_dictAppend_ne {β α : Type} [DecidableEq β] :
    ∀ (d : List (β × List α)) (b b' : β) (x : α), b' ≠ b →
      alookup (dictAppend d b x) b' = alookup d b'
  | [], b, b', x, h => by simp [dictAppend, alookup, Ne.symm h]
  | (c, l0) :: rest, b, b', x, h => by
    by_cases hc : c = b
    · subst hc
      simp [dictAppend, alookup, Ne.symm h]
    · simp only [dictAppend, hc, if_false, alookup]
      by_cases hc2 : c = b'
      · simp [hc2]
      · simp only [hc2, if_false]
        exact alookup_dictAppend_ne rest b b' x h

theorem keys_dictAppend {β α : Type} [DecidableEq β] :
    ∀ (d : List (β × List α)) (b : β) (x : α),
      (dictAppend d b x).map Prod.fst
        = if (alookup d b).isSome then d.map Prod.fst else d.map Prod.fst ++ [b]
  | [], b, x => by simp [dictAppend, alookup]
  | (c, l0) :: rest, b, x => by
    by_cases hc : c = b
    · subst hc
      simp [dictAppend, alookup]
    · simp only [dictAppend, hc, if_false, List.map_cons, alookup]
      rw [keys_dictAppend rest b x]
      by_cases hs : (alookup rest b).isSome <;> simp [hs, hc]

theorem alookup_eq_none_of_not_mem_keys {β α : Type} [DecidableEq β] :
    ∀ (d : List (β × List α)) (b : β), b ∉ d.map Prod.fst → alookup d b = none
  | [], b, _ => rfl
  | (c, l0) :: rest, b, h => by
    simp only [List.map_cons, List.mem_cons] at h
    push_neg at h
    simp only [alookup, Ne.symm h.1, if_false]
    exact alookup_eq_none_of_not_mem_keys rest b h.2

theorem alookup_isSome_of_mem_keys {β α : Type} [DecidableEq β] :
    ∀ (d : List (β × List α)) (b : β), b ∈ d.map Prod.fst → (alookup d b).isSome
  | [], b, h => by simp at h
  | (c, l0) :: rest, b, h => by
    by_cases hc : c = b
    · simp [alookup, hc]
    · simp only [List.map_cons, List.mem_cons] at h
      rcases h with h1 | h2
      · exact absurd h1.symm hc
      · simp only [alookup, hc, if_false]
        exact alookup_isSome_of_mem_keys rest b h2

theorem keys_nodup_dictAppend {β α : Type} [DecidableEq β]
    (d : List (β × List α)) (b : β) (x : α) (h : (d.map Prod.fst).Nodup) :
    ((dictAppend d b x).map Prod.fst).Nodup := by
  rw [keys_dictAppend]
  by_cases hs : (alookup d b).isSome
  · simpa [hs] using h
  · have hb : b ∉ d.map Prod.fst := fun hmem =>
      hs (alookup_isSome_of_mem_keys d b hmem)
    simp [hs, List.nodup_append, h, hb]

/-- Lookup after the defaultdict fold: the entry for `b` holds whatever was
there before followed by the input records whose key is `b`, in input order. -/
theorem alookup_groupFold {α β : Type} [DecidableEq β] (k : α → β) :
    ∀ (l : List α) (d : List (β × List α)) (b : β),
      alookup (groupFold k l d) b
        = match alookup d b with
          | some l0 => some (l0 ++ l.filter (fun x => decide (k x = b)))
          | none => optOfList (l.filter (fun x => decide (k x = b)))
  | [], d, b => by
    cases h : alookup d b <;> simp [groupFold_nil, h, optOfList]
  | x :: xs, d, b => by
    rw [groupFold_cons]
    by_cases hb : k x = b
    · subst hb
      have hd : alookup (dictAppend d (k x) x) (k x)
          = some ((alookup d (k x)).getD [] ++ [x]) := alookup_dictAppend_self d (k x) x
      have ih := alookup_groupFold k xs (dictAppend d (k x) x) (k x)
      rw [hd] at ih
      rw [ih]
      cases h : alookup d (k x) with
      | none => simp [h, List.filter_cons, optOfList]
      | some l0 => simp [h, List.filter_cons]
    · have hd : alookup (dictAppend d (k x) x) b = alookup d b :=
        alookup_dictAppend_ne d (k x) b x (fun h => hb h.symm)
      have ih := alookup_groupFold k xs (dictAppend d (k x) x) b
      rw [hd] at ih
      rw [ih]
      have hf : (x :: xs).filter (fun y => decide (k y = b))
          = xs.filter (fun y => decide (k y = b)) := by
        simp [List.filter_cons, hb]
      cases h : alookup d b <;> simp [h, hf]

theorem keys_nodup_groupFold {α β : Type} [DecidableEq β] (k : α → β) :
    ∀ (l : List α) (d : List (β × List α)), (d.map Prod.fst).Nodup →
      ((groupFold k l d).map Prod.fst).Nodup
  | [], _, h => h
  | x :: xs, d, h => by
    rw [groupFold_cons]
    exact keys_nodup_groupFold k xs _ (keys_nodup_dictAppend d (k x) x h)

theorem flatten_dictAppend {β α : Type} [DecidableEq β] :
    ∀ (d : List (β × List α)) (b : β) (x : α),
      ((dictAppend d b x).map Prod.snd).flatten.Perm ((d.map Prod.snd).flatten ++ [x])
  | [], b, x => by simp [dictAppend]
  | (c, l0) :: rest, b, x => by
    by_cases hc : c = b
    · simp only [dictAppend, hc, if_true, List.map_cons, List.flatten_cons]
      rw [List.append_assoc l0 [x] (rest.map Prod.snd).flatten,
        List.append_assoc l0 (rest.map Prod.snd).flatten [x]]
      exact List.Perm.append_left l0 List.perm_append_comm
    · simp only [dictAppend, hc, if_false, List.map_cons, List.flatten_cons]
      rw [List.append_assoc l0 (rest.map Prod.snd).flatten [x]]
      exact List.Perm.append_left l0 (flatten_dictAppend rest b x)

theorem flatten_groupFold {α β : Type} [DecidableEq β] (k : α → β) :
    ∀ (l : List α) (d : List (β × List α)),
      ((groupFold k l d).map Prod.snd).flatten.Perm ((d.map Prod.snd).flatten ++ l)
  | [], d => by simp [groupFold_nil]
  | x :: xs, d => by
    rw [groupFold_cons]
    have ih := flatten_groupFold k xs (dictAppend d (k x) x)
    have h2 := List.Perm.append_right xs (flatten_dictAppend d (k x) x)
    have h3 : ((d.map Prod.snd).flatten ++ [x]) ++ xs
        = (d.map Prod.snd).flatten ++ (x :: xs) := by simp
    exact (ih.trans h2).trans (by rw [h3])

/-! ### Supporting lemmas: orchestrator -/

theorem alookup_dictSet_self : ∀ (d : Dict) (k : String) (v : Value),
    alookup (dictSet d k v) k = some v
  | [], k, v => by simp [dictSet, alookup]
  | p :: rest, k, v => by
    by_cases hp : p.1 = k
    · simp [dictSet, hp, alookup]
    · simp only [dictSet, hp, if_false]
      simp only [alookup, hp, if_false]
      exact alookup_dictSet_self rest k v

theorem alookup_dictSet_ne : ∀ (d : Dict) (k k2 : String) (v : Value), k2 ≠ k →
    alookup (dictSet d k v) k2 = alookup d k2
  | [], k, k2, v, h => by simp [dictSet, alookup, Ne.symm h]
  | p :: rest, k, k2, v, h => by
    by_cases hp : p.1 = k
    · have hp2 : ¬(k = k2) := fun he => h he.symm
      simp [dictSet, hp, alookup, hp2]
    · simp only [dictSet, hp, if_false, alookup]
      by_cases hq : p.1 = k2
      · simp [hq]
      · simp only [hq, if_false]
        exact alookup_dictSet_ne rest k k2 v h

theorem insertResult_not_mem : ∀ (r : List (String × Nat)) (k : String) (v : Nat),
    k ∉ r.map Prod.fst → insertResult r k v = r ++ [(k, v)]
  | [], k, v, _ => rfl
  | p :: rest, k, v, h => by
    simp only [List.map_cons, List.mem_cons] at h
    push_neg at h
    simp only [insertResult, Ne.symm h.1, if_false, List.cons_append]
    rw [insertResult_not_mem rest k v h.2]

theorem newResult_disjoint : ∀ (tp : List (String × Dict)) (tid : Nat)
    (r : List (String × Nat)), (tp.map Prod.fst).Nodup →
    (∀ k2 ∈ tp.map Prod.fst, k2 ∉ r.map Prod.fst) →
    newResult tid tp r = r ++ resultPairs tid tp
  | [], tid, r, _, _ => by simp [newResult, resultPairs]
  | (key, d0) :: rest, tid, r, hnd, hdisj => by
    simp only [List.map_cons, List.nodup_cons] at hnd
    have hkey : key ∉ r.map Prod.fst := hdisj key (by simp)
    simp only [newResult]
    rw [insertResult_not_mem r key tid hkey]
    rw [newResult_disjoint rest (tid + 1) (r ++ [(key, tid)]) hnd.2 ?hdj]
    · simp [resultPairs]
    case hdj =>
      intro k2 hk2
      simp only [List.map_append, List.mem_append, List.map_cons, List.map_nil,
        List.mem_singleton]
      push_neg
      constructor
      · exact hdisj k2 (by simp [hk2])
      · intro he
        exact hnd.1 (he ▸ hk2)

theorem newTaskRows_length (task_flow : String) (user_id : Nat) :
    ∀ (tp : List (String × Dict)) (tid cid : Nat),
      (newTaskRows task_flow user_id tid cid tp).length = tp.length
  | [], _, _ => rfl
  | (key, d0) :: rest, tid, cid => by
    simp only [newTaskRows, List.length_cons]
    rw [newTaskRows_length task_flow user_id rest (tid + 1) (cid + 1)]

theorem newTaskRows_map_meta (task_flow : String) (user_id : Nat) :
    ∀ (tp : List (String × Dict)) (tid cid : Nat),
      (newTaskRows task_flow user_id tid cid tp).map TaskRow.meta_id
        = idRange cid tp.length
  | [], _, _ => rfl
  | (key, d0) :: rest, tid, cid => by
    simp only [newTaskRows, List.map_cons, List.length_cons, idRange]
    rw [newTaskRows_map_meta task_flow user_id rest (tid + 1) (cid + 1)]

theorem newTaskRows_map_id (task_flow : String) (user_id : Nat) :
    ∀ (tp : List (String × Dict)) (tid cid : Nat),
      (newTaskRows task_flow user_id tid cid tp).map TaskRow.id
        = idRange tid tp.length
  | [], _, _ => rfl
  | (key, d0) :: rest, tid, cid => by
    simp only [newTaskRows, List.map_cons, List.length_cons, idRange]
    rw [newTaskRows_map_id task_flow user_id rest (tid + 1) (cid + 1)]

theorem newTaskRows_map_params (task_flow : String) (user_id : Nat) :
    ∀ (tp : List (String × Dict)) (tid cid : Nat),
      (newTaskRows task_flow user_id tid cid tp).map TaskRow.params
        = tp.map Prod.snd
  | [], _, _ => rfl
  | (key, d0) :: rest, tid, cid => by
    simp only [newTaskRows, List.map_cons]
    rw [newTaskRows_map_params task_flow user_id rest (tid + 1) (cid + 1)]

theorem resultPairs_map_fst : ∀ (tp : List (String × Dict)) (tid : Nat),
    (resultPairs tid tp).map Prod.fst = tp.map Prod.fst
  | [], _ => rfl
  | (key, d0) :: rest, tid => by
    simp only [resultPairs, List.map_cons]
    rw [resultPairs_map_fst rest (tid + 1)]

theorem resultPairs_map_snd : ∀ (tp : List (String × Dict)) (tid : Nat),
    (resultPairs tid tp).map Prod.snd = idRange tid tp.length
  | [], _ => rfl
  | (key, d0) :: rest, tid => by
    simp only [resultPairs, List.map_cons, List.length_cons, idRange]
    rw [resultPairs_map_snd rest (tid + 1)]

theorem mem_idRange_ge : ∀ (n s m : Nat), m ∈ idRange s n → s ≤ m
  | 0, s, m, h => by simp [idRange] at h
  | n + 1, s, m, h => by
    simp only [idRange, List.mem_cons] at h
    rcases h with h | h
    · omega
    · have := mem_idRange_ge n (s + 1) m h
      omega

theorem idRange_nodup : ∀ (n s : Nat), (idRange s n).Nodup
  | 0, s => by simp [idRange]
  | n + 1, s => by
    simp only [idRange, List.nodup_cons]
    exact ⟨fun h => by have := mem_idRange_ge n (s + 1) s h; omega,
      idRange_nodup n (s + 1)⟩

/-- Closed form of the `fork_import_tasks` loop. -/
theorem fork_loop_spec (task_flow : String) (user_id : Nat) :
    ∀ (tp : List (String × Dict)) (result : List (String × Nat)) (st : OrchState),
      fork_loop task_flow user_id tp result st
        = (newResult st.nextTaskId tp result,
           { tasks := st.tasks ++ newTaskRows task_flow user_id st.nextTaskId st.nextCorrId tp,
             nextTaskId := st.nextTaskId + tp.length,
             nextCorrId := st.nextCorrId + tp.length,
             dispatched := st.dispatched ++ tp.map (fun p =>
               (task_flow, dictSet p.2 "owner_id" (Value.int user_id))) })
  | [], result, st => by simp [fork_loop, newResult, newTaskRows]
  | (key, d0) :: rest, result, st => by
    have ih := fork_loop_spec task_flow user_id rest
      (insertResult result key st.nextTaskId)
      ⟨st.tasks ++ [⟨st.nextTaskId, user_id, st.nextCorrId, task_flow, d0⟩],
       st.nextTaskId + 1, st.nextCorrId + 1,
       st.dispatched ++ [(task_flow, dictSet d0 "owner_id" (Value.int user_id))]⟩
    simp only [fork_loop]
    rw [ih]
    simp only [Prod.mk.injEq, OrchState.mk.injEq]
    refine ⟨rfl, ?_, by simp [List.length_cons]; omega, by simp [List.length_cons]; omega, ?_⟩
    · simp [newTaskRows, List.append_assoc]
    · simp [List.map_cons, List.append_assoc]

/-! ### Supporting lemmas: NVR formatting -/

theorem format_nvr_complete (c : ComponentRec) (h : hasNVRFields c) :
    format_nvr c = Except.ok (nvrString c) := by
  obtain ⟨h1, h2, h3⟩ := h
  obtain ⟨n, hn⟩ := Option.isSome_iff_exists.mp h1
  obtain ⟨v, hv⟩ := Option.isSome_iff_exists.mp h2
  obtain ⟨r, hr⟩ := Option.isSome_iff_exists.mp h3
  unfold format_nvr nvrString
  rw [hn, hv, hr]
  rfl

theorem format_nvr_incomplete (c : ComponentRec) (h : ¬ hasNVRFields c) :
    ∃ f, f ∈ (["name", "version", "release"] : List String) ∧
      format_nvr c = Except.error (PyErr.keyError f) := by
  cases hn : alookup c "name" with
  | none => exact ⟨"name", by simp, by simp [format_nvr, hn]⟩
  | some n =>
    cases hv : alookup c "version" with
    | none => exact ⟨"version", by simp, by simp [format_nvr, hn, hv]⟩
    | some v =>
      cases hr : alookup c "release" with
      | none => exact ⟨"release", by simp, by simp [format_nvr, hn, hv, hr]⟩
      | some r =>
        exact absurd
          (show hasNVRFields c from ⟨by simp [hn], by simp [hv], by simp [hr]⟩) h

theorem nvr_loop_all_ok : ∀ (comps : List ComponentRec),
    (∀ c ∈ comps, hasNVRFields c) → nvr_loop comps = Except.ok (comps.map nvrString)
  | [], _ => rfl
  | c :: rest, hall => by
    have hc := format_nvr_complete c (hall c (by simp))
    have ih := nvr_loop_all_ok rest (fun c2 hc2 => hall c2 (by simp [hc2]))
    simp [nvr_loop, hc, ih]

theorem nvr_loop_fails : ∀ (comps : List ComponentRec),
    (∃ c ∈ comps, ¬ hasNVRFields c) →
    ∃ f, f ∈ (["name", "version", "release"] : List String) ∧
      nvr_loop comps = Except.error (PyErr.keyError f)
  | [], h => by simp at h
  | c :: rest, h => by
    by_cases hc : hasNVRFields c
    · have hrest : ∃ c2 ∈ rest, ¬ hasNVRFields c2 := by
        rcases h with ⟨c2, hc2, hnc⟩
        rcases List.mem_cons.mp hc2 with he | hmem
        · exact absurd (he ▸ hc) hnc
        · exact ⟨c2, hmem, hnc⟩
      obtain ⟨f, hf, hloop⟩ := nvr_loop_fails rest hrest
      exact ⟨f, hf, by simp [nvr_loop, format_nvr_complete c hc, hloop]⟩
    · obtain ⟨f, hf, herr⟩ := format_nvr_incomplete c hc
      exact ⟨f, hf, by simp [nvr_loop, herr]⟩

/-! ### Claim theorems -/

/-- C7: when the requested type has a group, `get_nvr_list_from_components`
returns the `name-version-release` string of each record in input order, and
raises `KeyError` (the `KeyFieldMissing` of the spec) whenever some record of
the group lacks one of the three fields. -/
theorem get_nvr_list_from_components_spec
    (components : List (String × List ComponentRec)) (comp_type : String)
    (comps : List ComponentRec) (h : alookup components comp_type = some comps) :
    ((∀ c ∈ comps, hasNVRFields c) →
        get_nvr_list_from_components components comp_type
          = Except.ok (comps.map nvrString)) ∧
    ((∃ c ∈ comps, ¬ hasNVRFields c) →
        ∃ f, f ∈ (["name", "version", "release"] : List String) ∧
          get_nvr_list_from_components components comp_type
            = Except.error (PyErr.keyError f)) := by
  constructor
  · intro hall
    unfold get_nvr_list_from_components
    rw [h]
    exact nvr_loop_all_ok comps hall
  · intro hex
    obtain ⟨f, hf, he⟩ := nvr_loop_fails comps hex
    refine ⟨f, hf, ?_⟩
    unfold get_nvr_list_from_components
    rw [h]
    exact he

/-- Witness for C7: the spec's own example, a complete record of type `rpm`
formatted to `foo-1-2`, and with `version` removed a `KeyError`. -/
theorem get_nvr_list_from_components_spec_witness :
    (alookup ([("rpm", [[("name", "foo"), ("version", "1"), ("release", "2")]])] :
        List (String × List ComponentRec)) "rpm"
      = some [[("name", "foo"), ("version", "1"), ("release", "2")]]) ∧
    (((∀ c ∈ ([[("name", "foo"), ("version", "1"), ("release", "2")]] :
          List ComponentRec), hasNVRFields c) →
        get_nvr_list_from_components
            [("rpm", [[("name", "foo"), ("version", "1"), ("release", "2")]])] "rpm"
          = Except.ok
              (([[("name", "foo"), ("version", "1"), ("release", "2")]] :
                List ComponentRec).map nvrString)) ∧
      ((∃ c ∈ ([[("name", "foo"), ("version", "1"), ("release", "2")]] :
          List ComponentRec), ¬ hasNVRFields c) →
        ∃ f, f ∈ (["name", "version", "release"] : List String) ∧
          get_nvr_list_from_components
              [("rpm", [[("name", "foo"), ("version", "1"), ("release", "2")]])] "rpm"
            = Except.error (PyErr.keyError f))) :=
  ⟨rfl, get_nvr_list_from_components_spec _ _ _ rfl⟩

/-- C10: when the requested type is absent from the grouped mapping, the
`.get` lookup yields `None` and iterating it raises `TypeError` instead of
returning an empty list. -/
theorem get_nvr_list_from_components_missing_type
    (components : List (String × List ComponentRec)) (comp_type : String)
    (h : alookup components comp_type = none) :
    get_nvr_list_from_components components comp_type
      = Except.error PyErr.typeError := by
  unfold get_nvr_list_from_components
  rw [h]

/-- Witness for C10: a mapping holding only `rpm` groups, queried for `deb`. -/
theorem get_nvr_list_from_components_missing_type_witness :
    (alookup ([("rpm", [])] : List (String × List ComponentRec)) "deb" = none) ∧
    get_nvr_list_from_components [("rpm", [])] "deb"
      = Except.error PyErr.typeError :=
  ⟨rfl, get_nvr_list_from_components_missing_type _ _ rfl⟩

/-- C8 counterexample: when the extension table misses and the content sniffer
raises an `OSError`, `get_mime_type` propagates the error — the claim that any
sniffing error is swallowed fails at this input. -/
theorem get_mime_type_osError_propagates :
    get_mime_type none SniffOutcome.raisesOSError = Except.error PyErr.osError :=
  rfl

/-- C8 amended: `get_mime_type` swallows only `TypeError` from the content
sniffer (returning an absent result); an extension-table hit or a sniffed
value is returned as-is, and any other sniffing exception propagates. -/
theorem get_mime_type_swallows_only_typeError :
    (∀ (m : String) (sniff : SniffOutcome),
        get_mime_type (some m) sniff = Except.ok (some m)) ∧
    (∀ m : Option String,
        get_mime_type none (SniffOutcome.value m) = Except.ok m) ∧
    get_mime_type none SniffOutcome.raisesTypeError = Except.ok none ∧
    get_mime_type none SniffOutcome.raisesOSError = Except.error PyErr.osError :=
  ⟨fun _ _ => rfl, fun _ => rfl, rfl, rfl⟩

/-- C6: evaluating `compress_source_to_tarball` at a directory holding a
hidden entry `.foo` and a plain entry `bar`: the shell glob `*` omits `.foo`,
so the call reports success, archives only `bar`, and removes the source
directory — the hidden entry is silently lost instead of the entire contents
being archived. -/
theorem compress_source_to_tarball_drops_hidden_entries :
    compress_source_to_tarball [⟨".foo", "hidden"⟩, ⟨"bar", "data"⟩] true
      = (true, Except.ok [⟨"bar", "data"⟩]) ∧
    (⟨".foo", "hidden"⟩ : SrcEntry) ∈
      ([⟨".foo", "hidden"⟩, ⟨"bar", "data"⟩] : List SrcEntry) ∧
    (⟨".foo", "hidden"⟩ : SrcEntry) ∉ ([⟨"bar", "data"⟩] : List SrcEntry) :=
  ⟨rfl, by decide, by decide⟩

/-- C9 counterexample: `Product.add_release` stores whatever `name` the caller
passes; called on a product named `p` with version `1.0` but name `x`, the
created row's name is `x`, not the derived `p-1.0`. -/
theorem add_release_name_not_derived :
    (add_release [] ⟨1, "p"⟩ "x" "1.0" "").2.name = "x" ∧
    (add_release [] ⟨1, "p"⟩ "x" "1.0" "").1 = [⟨1, "1.0", "x", ""⟩] ∧
    (add_release [] ⟨1, "p"⟩ "x" "1.0" "").2.name ≠ "p" ++ "-" ++ "1.0" :=
  ⟨rfl, rfl, by decide⟩

/-- C9 amended: for every release created or updated through
`Product.add_release`, the row's `name` equals the caller-supplied `name`
argument (the `{product}-{version}` join is a caller convention, not enforced
here), its `version` equals the supplied version, and the row is in the
resulting table. -/
theorem add_release_name_is_argument (releases : List ReleaseRow) (p : ProductRow)
    (name version notes : String) :
    (add_release releases p name version notes).2.name = name ∧
    (add_release releases p name version notes).2.version = version ∧
    (add_release releases p name version notes).2
      ∈ (add_release releases p name version notes).1 := by
  unfold add_release
  cases hf : releases.find? (fun r =>
      decide (r.product_id = p.id) && decide (r.name = name)
        && decide (r.version = version)) with
  | none => exact ⟨rfl, rfl, by simp⟩
  | some r =>
    have hp := List.find?_some hf
    simp only [Bool.and_eq_true, decide_eq_true_eq] at hp
    obtain ⟨⟨hpid, hname⟩, hver⟩ := hp
    have hmem := List.mem_of_find?_eq_some hf
    refine ⟨hname, hver, ?_⟩
    exact List.mem_map.mpr ⟨r, hmem, by simp⟩

/-- C5 counterexample: a component-tree table that satisfies every constraint
the `ComponentTreeNode` model declares (unique primary keys, resolving parent
references, and the empty `Meta.constraints` list) while two sibling rows
reference the same `(parent, object_id)` pair. -/
theorem componentTree_allows_duplicate_siblings :
    tableValid componentTreeNodeConstraints
      [⟨1, "root", none, 1, 1⟩, ⟨2, "child1", some 1, 1, 5⟩,
       ⟨3, "child2", some 1, 1, 5⟩] ∧
    ¬ siblingUnique
      [⟨1, "root", none, 1, 1⟩, ⟨2, "child1", some 1, 1, 5⟩,
       ⟨3, "child2", some 1, 1, 5⟩] :=
  ⟨by decide, by decide⟩

/-- C5 amended: only the product tree declares the sibling-uniqueness
constraint (`UniqueConstraint(fields=['parent', 'object_id'])`); in every
product-tree table state satisfying the declared constraints, no two rows
share both parent and referenced entity id.  The component tree declares no
such constraint. -/
theorem productTree_sibling_unique (t : List TreeNodeRow)
    (h : tableValid productTreeNodeConstraints t) : siblingUnique t := by
  obtain ⟨-, -, hc⟩ := h
  have hs := hc (TableConstraint.uniqueFields [NodeField.parent, NodeField.object_id])
    (by simp [productTreeNodeConstraints])
  unfold satisfiesConstraint at hs
  unfold siblingUnique
  refine hs.imp ?_
  intro r1 r2 hne hand
  apply hne
  simp [nodeFieldVal, hand.1, hand.2]

/-- Witness for C5's amended theorem: a concrete valid product-tree table. -/
theorem productTree_sibling_unique_witness :
    tableValid productTreeNodeConstraints
      [⟨1, "root", none, 1, 1⟩, ⟨2, "child1", some 1, 1, 5⟩,
       ⟨3, "child2", some 1, 2, 6⟩] ∧
    siblingUnique
      [⟨1, "root", none, 1, 1⟩, ⟨2, "child1", some 1, 1, 5⟩,
       ⟨3, "child2", some 1, 2, 6⟩] :=
  ⟨by decide, productTree_sibling_unique _ (by decide)⟩

/-- C3: on a pre-sorted input (all records with equal key values contiguous),
`group_components` is a partition of the input: each key value maps to exactly
the input records carrying it, in input order; group keys are pairwise
distinct; and the concatenation of all groups is a permutation of the input
(no record lost or duplicated). -/
theorem group_components_partition {α β : Type} [DecidableEq β] (k : α → β)
    (l : List α) (_hsorted : ContiguousKeys k l) :
    (∀ b, alookup (group_components k l) b
        = optOfList (l.filter (fun x => decide (k x = b)))) ∧
    ((group_components k l).map Prod.fst).Nodup ∧
    ((group_components k l).map Prod.snd).flatten.Perm l := by
  refine ⟨?_, ?_, ?_⟩
  · intro b
    rw [group_components_eq]
    exact alookup_groupFold k l [] b
  · rw [group_components_eq]
    exact keys_nodup_groupFold k l [] (by simp)
  · rw [group_components_eq]
    have h := flatten_groupFold k l []
    simpa using h

/-- Witness for C3: a concrete pre-sorted list of records keyed by their
second field. -/
theorem group_components_partition_witness :
    ContiguousKeys (Prod.snd : Nat × Nat → Nat) [(1, 10), (2, 10), (3, 20)] ∧
    ((∀ b, alookup (group_components (Prod.snd : Nat × Nat → Nat)
          [(1, 10), (2, 10), (3, 20)]) b
        = optOfList ([(1, 10), (2, 10), (3, 20)].filter
            (fun x => decide (Prod.snd x = b)))) ∧
      ((group_components (Prod.snd : Nat × Nat → Nat)
          [(1, 10), (2, 10), (3, 20)]).map Prod.fst).Nodup ∧
      ((group_components (Prod.snd : Nat × Nat → Nat)
          [(1, 10), (2, 10), (3, 20)]).map Prod.snd).flatten.Perm
        [(1, 10), (2, 10), (3, 20)]) :=
  ⟨by decide, group_components_partition Prod.snd _ (by decide)⟩

/-- C4 counterexample: on a non-contiguous input the records with the repeated
key `10` end up in one merged group — the result holds a single `10` entry
containing both records, with no duplicate groups. -/
theorem group_components_merges_noncontiguous :
    group_components (Prod.snd : Nat × Nat → Nat) [(1, 10), (2, 20), (3, 10)]
      = [(10, [(1, 10), (3, 10)]), (20, [(2, 20)])] ∧
    ((group_components (Prod.snd : Nat × Nat → Nat)
        [(1, 10), (2, 20), (3, 10)]).map Prod.fst).Nodup :=
  ⟨by decide, by decide⟩

/-- C4 amended: `group_components` is a single left-to-right pass over the
`groupby` runs, but the runs accumulate into a dict keyed by the value, so
records with a repeated non-contiguous key merge into one group: for every
input — pre-sorted or not — the result is a full partition with pairwise
distinct group keys, and pre-sorting is not required for correctness. -/
theorem group_components_no_duplicate_groups {α β : Type} [DecidableEq β]
    (k : α → β) (l : List α) :
    ((group_components k l).map Prod.fst).Nodup ∧
    (∀ b, alookup (group_components k l) b
        = optOfList (l.filter (fun x => decide (k x = b)))) ∧
    ((group_components k l).map Prod.snd).flatten.Perm l := by
  refine ⟨?_, ?_, ?_⟩
  · rw [group_components_eq]
    exact keys_nodup_groupFold k l [] (by simp)
  · intro b
    rw [group_components_eq]
    exact alookup_groupFold k l [] b
  · rw [group_components_eq]
    have h := flatten_groupFold k l []
    simpa using h

/-- C1: for a batch of distinct NVR keys, `fork_import_tasks` over
`NVRImportSerializer.get_tasks_params` creates exactly one `Task` row per item
(appended to the table, owner and stored params as submitted), dispatches for
each item a payload equal to the shared parameters merged with the item's
`package_nvr` key plus the `owner_id`, records the worker-assigned correlation
ids — which are pairwise distinct — in the rows' `meta_id`, and returns the
mapping from each item key, in order, to its `Task` row's id. -/
theorem fork_import_tasks_correct (package_nvrs : List String) (shared : Dict)
    (uid : Nat) (st : OrchState) (hnodup : package_nvrs.Nodup) :
    (fork_import_tasks (get_tasks_params package_nvrs shared)
        get_task_flow uid st).2.tasks
      = st.tasks ++ newTaskRows get_task_flow uid st.nextTaskId st.nextCorrId
          (get_tasks_params package_nvrs shared) ∧
    (newTaskRows get_task_flow uid st.nextTaskId st.nextCorrId
        (get_tasks_params package_nvrs shared)).length = package_nvrs.length ∧
    (fork_import_tasks (get_tasks_params package_nvrs shared)
        get_task_flow uid st).2.dispatched
      = st.dispatched ++ package_nvrs.map
          (fun nvr => (get_task_flow, itemPayload shared uid nvr)) ∧
    (∀ nvr ∈ package_nvrs,
        alookup (itemPayload shared uid nvr) "package_nvr"
            = some (Value.str nvr) ∧
        alookup (itemPayload shared uid nvr) "owner_id" = some (Value.int uid) ∧
        ∀ k2, k2 ≠ "package_nvr" → k2 ≠ "owner_id" →
          alookup (itemPayload shared uid nvr) k2 = alookup shared k2) ∧
    (newTaskRows get_task_flow uid st.nextTaskId st.nextCorrId
        (get_tasks_params package_nvrs shared)).map TaskRow.meta_id
      = idRange st.nextCorrId package_nvrs.length ∧
    (idRange st.nextCorrId package_nvrs.length).Nodup ∧
    (newTaskRows get_task_flow uid st.nextTaskId st.nextCorrId
        (get_tasks_params package_nvrs shared)).map TaskRow.params
      = package_nvrs.map (fun nvr => ("package_nvr", Value.str nvr) :: shared) ∧
    (fork_import_tasks (get_tasks_params package_nvrs shared)
        get_task_flow uid st).1
      = resultPairs st.nextTaskId (get_tasks_params package_nvrs shared) ∧
    (resultPairs st.nextTaskId (get_tasks_params package_nvrs shared)).map
        Prod.fst = package_nvrs ∧
    (resultPairs st.nextTaskId (get_tasks_params package_nvrs shared)).map
        Prod.snd
      = (newTaskRows get_task_flow uid st.nextTaskId st.nextCorrId
          (get_tasks_params package_nvrs shared)).map TaskRow.id := by
  have hspec := fork_loop_spec get_task_flow uid
    (get_tasks_params package_nvrs shared) [] st
  have hlen : (get_tasks_params package_nvrs shared).length
      = package_nvrs.length := by simp [get_tasks_params]
  have hkeys : (get_tasks_params package_nvrs shared).map Prod.fst
      = package_nvrs := by
    simp [get_tasks_params, List.map_map, Function.comp_def]
  refine ⟨?_, ?_, ?_, ?_, ?_, ?_, ?_, ?_, ?_, ?_⟩
  · unfold fork_import_tasks
    rw [hspec]
  · rw [newTaskRows_length, hlen]
  · unfold fork_import_tasks
    rw [hspec]
    simp only [get_tasks_params, List.map_map]
    rfl
  · intro nvr _
    refine ⟨?_, ?_, ?_⟩
    · rw [itemPayload, alookup_dictSet_ne _ _ _ _ (by decide)]
      simp [alookup]
    · rw [itemPayload, alookup_dictSet_self]
    · intro k2 h1 h2
      rw [itemPayload, alookup_dictSet_ne _ _ _ _ h2]
      simp [alookup, Ne.symm h1]
  · rw [newTaskRows_map_meta, hlen]
  · exact idRange_nodup _ _
  · rw [newTaskRows_map_params]
    simp [get_tasks_params, List.map_map, Function.comp]
  · unfold fork_import_tasks
    rw [hspec]
    exact newResult_disjoint _ _ [] (by rw [hkeys]; exact hnodup) (by simp)
  · rw [resultPairs_map_fst, hkeys]
  · rw [resultPairs_map_snd, newTaskRows_map_id, hlen]

/-- Witness for C1: the spec's example — items `a` and `b` with shared
parameter `x = 1`, owner 7, starting from an empty store: two task rows,
payloads carrying `x`, the item key and the owner, correlation ids 0 and 1,
and the result mapping `a` and `b` to task ids 0 and 1. -/
theorem fork_import_tasks_correct_witness :
    (["a", "b"] : List String).Nodup ∧
    ((fork_import_tasks (get_tasks_params ["a", "b"] [("x", Value.int 1)])
        get_task_flow 7 ⟨[], 0, 0, []⟩).2.tasks
      = ([] : List TaskRow) ++ newTaskRows get_task_flow 7 0 0
          (get_tasks_params ["a", "b"] [("x", Value.int 1)]) ∧
    (newTaskRows get_task_flow 7 0 0
        (get_tasks_params ["a", "b"] [("x", Value.int 1)])).length
      = (["a", "b"] : List String).length ∧
    (fork_import_tasks (get_tasks_params ["a", "b"] [("x", Value.int 1)])
        get_task_flow 7 ⟨[], 0, 0, []⟩).2.dispatched
      = ([] : List (String × Dict)) ++ (["a", "b"] : List String).map
          (fun nvr => (get_task_flow, itemPayload [("x", Value.int 1)] 7 nvr)) ∧
    (∀ nvr ∈ (["a", "b"] : List String),
        alookup (itemPayload [("x", Value.int 1)] 7 nvr) "package_nvr"
            = some (Value.str nvr) ∧
        alookup (itemPayload [("x", Value.int 1)] 7 nvr) "owner_id"
            = some (Value.int 7) ∧
        ∀ k2, k2 ≠ "package_nvr" → k2 ≠ "owner_id" →
          alookup (itemPayload [("x", Value.int 1)] 7 nvr) k2
            = alookup [("x", Value.int 1)] k2) ∧
    (newTaskRows get_task_flow 7 0 0
        (get_tasks_params ["a", "b"] [("x", Value.int 1)])).map TaskRow.meta_id
      = idRange 0 (["a", "b"] : List String).length ∧
    (idRange 0 (["a", "b"] : List String).length).Nodup ∧
    (newTaskRows get_task_flow 7 0 0
        (get_tasks_params ["a", "b"] [("x", Value.int 1)])).map TaskRow.params
      = (["a", "b"] : List String).map
          (fun nvr => ("package_nvr", Value.str nvr) :: [("x", Value.int 1)]) ∧
    (fork_import_tasks (get_tasks_params ["a", "b"] [("x", Value.int 1)])
        get_task_flow 7 ⟨[], 0, 0, []⟩).1
      = resultPairs 0 (get_tasks_params ["a", "b"] [("x", Value.int 1)]) ∧
    (resultPairs 0 (get_tasks_params ["a", "b"] [("x", Value.int 1)])).map
        Prod.fst = ["a", "b"] ∧
    (resultPairs 0 (get_tasks_params ["a", "b"] [("x", Value.int 1)])).map
        Prod.snd
      = (newTaskRows get_task_flow 7 0 0
          (get_tasks_params ["a", "b"] [("x", Value.int 1)])).map TaskRow.id) :=
  ⟨by decide, fork_import_tasks_correct ["a", "b"] [("x", Value.int 1)] 7
    ⟨[], 0, 0, []⟩ (by decide)⟩

/-- C2: submitting a batch whose declared release names no existing `Release`
row fails validation with the non-existent-release error before any dispatch:
the returned state is exactly the input state — zero `Task` rows created,
nothing dispatched. -/
theorem submit_nvr_import_unknown_release (releases : List ReleaseRow)
    (rname : String) (package_nvrs : List String) (shared : Dict) (uid : Nat)
    (st : OrchState) (h : ∀ row ∈ releases, row.name ≠ rname) :
    submit_nvr_import releases (some rname) package_nvrs shared uid st
      = (st, Except.error (PyErr.validationError
          ("Non-existent product release: " ++ rname))) := by
  have hf : releases.filter (fun r => decide (r.name = rname)) = [] := by
    rw [List.filter_eq_nil_iff]
    intro r hr
    simpa using h r hr
  have hv : release_validator releases (some rname)
      = Except.error (PyErr.validationError
          ("Non-existent product release: " ++ rname)) := by
    simp only [release_validator]
    rw [hf]
  unfold submit_nvr_import
  rw [hv]

/-- Witness for C2: a store holding only release `p-1.0`, submitted against
release name `nope`. -/
theorem submit_nvr_import_unknown_release_witness :
    (∀ row ∈ ([⟨1, "1.0", "p-1.0", ""⟩] : List ReleaseRow), row.name ≠ "nope") ∧
    submit_nvr_import [⟨1, "1.0", "p-1.0", ""⟩] (some "nope") ["a"]
        [("x", Value.int 1)] 7 ⟨[], 0, 0, []⟩
      = (⟨[], 0, 0, []⟩, Except.error (PyErr.validationError
          ("Non-existent product release: " ++ "nope"))) :=
  ⟨by decide, submit_nvr_import_unknown_release _ _ _ _ _ _ (by decide)⟩

end OpenLCS
